import Mathlib

/-!
Verification of the DCDIU server (C++ sources under SRC/DCDIU V3.0 and
SRC/DCDIU_V4.0) against its natural-language specification.

The development shallowly embeds the pure content of the server code:

* `FSNode` models a filesystem subtree as the traversal observes it
  (`DirectoryTraverser::traverse`, DCDIU V3.0): a node is a regular file
  with byte content, a directory that may or may not be openable, an
  entry whose `stat` fails, or some other (non-dir, non-regular) entry.
* `traverse` embeds `DirectoryTraverser::traverse`: it returns the bytes
  sent to the peer, the updated shared `fileCount`, and the paths
  appended to the output file (`data/files.txt`).
* `scan` embeds `ContentScanner::scan` (DCDIU V4.0).
* `inspect` embeds `FileInspector::inspect` (DCDIU V4.0).
* `authenticate` embeds `ClientHandler::authenticate` (DCDIU V4.0),
  parametric in the hash function (OpenSSL SHA-256 is an external
  library) and in the freshly generated salt (randomness is external).
* `dispatch` / `commandOutput` / `session` embed the command loop of
  `ClientHandler::handle` (DCDIU V4.0).

Bytes are modelled as `Char`/`String` (the server treats content as
opaque byte sequences; the embedding never depends on unicode
structure), and machine counters as `Nat` (the `int` file counter only
ever increments from zero, far below overflow for any finite tree).
-/

namespace DCDIU

/-- The end-of-response sentinel `END_MARK` from ClientHandler.cpp /
FileInspector.cpp. -/
def ENDMARK : String := "<<END>>\n"

mutual

/-- A filesystem subtree as observed by the traversal code.
`file` is a regular file (`S_ISREG`) with its byte content; `dir` is a
directory (`S_ISDIR`) whose `opendir` succeeds iff `canOpen`, with its
named entries (the `.` and `..` pseudo-entries are not represented);
`statFail` is an entry whose `stat` call fails; `special` is an entry
whose `stat` succeeds but which is neither a directory nor a regular
file. -/
inductive FSNode : Type where
  | file (content : List Char) : FSNode
  | dir (canOpen : Bool) (entries : FSEntries) : FSNode
  | statFail : FSNode
  | special : FSNode

/-- The entries of a directory, in filesystem-enumeration order. -/
inductive FSEntries : Type where
  | nil : FSEntries
  | cons (name : String) (node : FSNode) (rest : FSEntries) : FSEntries

end

mutual

/-- Embedding of `DirectoryTraverser::traverse` (DCDIU V3.0).
Input: the subtree at `basePath` and the shared counter value.
Output: `(bytes sent to the peer, final counter, paths appended to the
output file)`.  `opendir` fails on anything that is not an openable
directory; the failure sends `"ERROR: Cannot open directory\n"` and
returns without touching the counter.  An openable directory first
announces `"Directory: <path>\n"`, then processes each entry in order. -/
def traverse (node : FSNode) (basePath : String) (fileCount : Nat) :
    String × Nat × List String :=
  match node with
  | .dir true entries =>
      let r := traverseEntries entries basePath fileCount
      ("Directory: " ++ basePath ++ "\n" ++ r.1, r.2.1, r.2.2)
  | _ => ("ERROR: Cannot open directory\n", fileCount, [])

/-- The entry loop of `DirectoryTraverser::traverse`: for each entry,
build `fullPath = basePath + "/" + name`; skip it if `stat` fails;
recurse if it is a directory; if it is a regular file, increment the
shared counter, send `"File: <fullPath>\n"` and append `<fullPath>` to
the output file; skip any other entry kind. -/
def traverseEntries (entries : FSEntries) (basePath : String) (fileCount : Nat) :
    String × Nat × List String :=
  match entries with
  | .nil => ("", fileCount, [])
  | .cons name node rest =>
      let fullPath := basePath ++ "/" ++ name
      let r1 : String × Nat × List String :=
        match node with
        | .statFail => ("", fileCount, [])
        | .special => ("", fileCount, [])
        | .file _ => ("File: " ++ fullPath ++ "\n", fileCount + 1, [fullPath])
        | .dir b es => traverse (.dir b es) fullPath fileCount
      let r2 := traverseEntries rest basePath r1.2.1
      (r1.1 ++ r2.1, r2.2.1, r1.2.2 ++ r2.2.2)

end

mutual

/-- The number of regular files anywhere in the subtree. -/
def countFiles : FSNode → Nat
  | .file _ => 1
  | .dir _ entries => countFilesEntries entries
  | .statFail => 0
  | .special => 0

/-- The number of regular files in a list of entries. -/
def countFilesEntries : FSEntries → Nat
  | .nil => 0
  | .cons _ node rest => countFiles node + countFilesEntries rest

end

mutual

/-- The subtree is fully accessible: every directory in it can be
opened and no entry's `stat` fails. -/
def accessible : FSNode → Bool
  | .file _ => true
  | .dir b entries => b && accessibleEntries entries
  | .statFail => false
  | .special => true

/-- All entries in the list are fully accessible. -/
def accessibleEntries : FSEntries → Bool
  | .nil => true
  | .cons _ node rest => accessible node && accessibleEntries rest

end

/-- The summary line built in the `TRAVERSE` branch of
`ClientHandler::handle`: `"\nTotal Files: " + to_string(fileCount) + "\n"`,
where the counter was reset to zero before the call. -/
def traverseSummary (node : FSNode) (path : String) : String :=
  "\nTotal Files: " ++ toString (traverse node path 0).2.1 ++ "\n"

mutual

theorem traverse_count_acc (b : Bool) (entries : FSEntries) (p : String) (n : Nat)
    (h : accessible (.dir b entries) = true) :
    (traverse (.dir b entries) p n).2.1 = n + countFiles (.dir b entries) := by
  have hb : b = true := by
    cases b with
    | true => rfl
    | false => simp [accessible] at h
  subst hb
  have he : accessibleEntries entries = true := by
    simpa [accessible] using h
  simp [traverse, countFiles, traverseEntries_count_acc entries p n he]

theorem traverseEntries_count_acc (entries : FSEntries) (p : String) (n : Nat)
    (h : accessibleEntries entries = true) :
    (traverseEntries entries p n).2.1 = n + countFilesEntries entries := by
  match entries with
  | .nil => simp [traverseEntries, countFilesEntries]
  | .cons name node rest =>
      have h1 : accessible node = true := by
        simp [accessibleEntries] at h
        exact h.1
      have h2 : accessibleEntries rest = true := by
        simp [accessibleEntries] at h
        exact h.2
      match node with
      | .statFail => simp [accessible] at h1
      | .special =>
          simpa [traverseEntries, countFilesEntries, countFiles] using
            traverseEntries_count_acc rest p n h2
      | .file c =>
          have := traverseEntries_count_acc rest p (n + 1) h2
          simp [traverseEntries, countFilesEntries, countFiles, this]
          omega
      | .dir b es =>
          have hn := traverse_count_acc b es (p ++ "/" ++ name) n h1
          have hr := traverseEntries_count_acc rest p
            (n + countFiles (.dir b es)) h2
          simp [traverseEntries, countFilesEntries, hn, hr]
          omega

end

/-- C1: For every fully accessible directory tree, after `TRAVERSE` on
the root the count in the `"\nTotal Files: <count>\n"` summary equals the
number of regular files reachable anywhere under the root, and the single
shared counter accumulates across all recursive frames starting from the
value it was reset to before the call. -/
theorem C1_traverse_total_count (entries : FSEntries) (p : String) (n : Nat)
    (h : accessible (.dir true entries) = true) :
    (traverse (.dir true entries) p n).2.1 = n + countFiles (.dir true entries) ∧
    traverseSummary (.dir true entries) p =
      "\nTotal Files: " ++ toString (countFiles (.dir true entries)) ++ "\n" := by
  refine ⟨traverse_count_acc true entries p n h, ?_⟩
  have h0 := traverse_count_acc true entries p 0 h
  simp [traverseSummary, h0]

/-- A concrete two-level test tree with three regular files. -/
def testEntries : FSEntries :=
  .cons "a" (.file ['x'])
    (.cons "d" (.dir true (.cons "b" (.file []) (.cons "c" (.file ['y'])
      .nil))) .nil)

/-- Witness for C1 at a concrete two-level tree with three regular files. -/
theorem C1_witness :
    accessible (.dir true testEntries) = true ∧
    ((traverse (.dir true testEntries) "/r" 0).2.1 =
        0 + countFiles (.dir true testEntries) ∧
      traverseSummary (.dir true testEntries) "/r" =
        "\nTotal Files: " ++ toString (countFiles (.dir true testEntries)) ++ "\n") :=
  ⟨by decide, C1_traverse_total_count testEntries "/r" 0 (by decide)⟩

/-- C8: An unopenable directory sends the error announcement and abandons
only that subtree: the counter and output list are untouched by it, the
calling frame continues with the remaining sibling entries at the same
counter value, and an entry whose `stat` fails is skipped without
changing the counter, the peer bytes, or the output list. -/
theorem C8_error_containment (name p : String) (es rest : FSEntries) (n : Nat) :
    traverse (.dir false es) p n = ("ERROR: Cannot open directory\n", n, []) ∧
    traverseEntries (.cons name (.dir false es) rest) p n =
      ("ERROR: Cannot open directory\n" ++ (traverseEntries rest p n).1,
        (traverseEntries rest p n).2.1, (traverseEntries rest p n).2.2) ∧
    traverseEntries (.cons name .statFail rest) p n = traverseEntries rest p n := by
  refine ⟨rfl, ?_, ?_⟩ <;> simp [traverseEntries, traverse]

/-! ### File Streamer (`FileInspector::inspect`, DCDIU V4.0) -/

/-- The argument of one `INSPECT` call: either `open(path, O_RDONLY)`
fails, or it yields a regular file with the given byte content. -/
inductive InspectInput : Type where
  | cannotOpen : InspectInput
  | fileContent (c : List Char) : InspectInput

/-- The bytes produced by the read/send loop of `FileInspector::inspect`:
each iteration reads up to `BUFFER_SIZE = 4096` bytes and sends that
chunk immediately. -/
def streamFile (c : List Char) : List Char :=
  if c = [] then [] else c.take 4096 ++ streamFile (c.drop 4096)
termination_by c.length
decreasing_by
  simp [List.length_drop]
  cases c with
  | nil => simp_all
  | cons a l => simp

/-- Embedding of `FileInspector::inspect`: on open failure it sends
`"ERROR: Cannot open file\n"` immediately followed by `END_MARK` and
stops; otherwise it streams the content in chunks and then sends
`END_MARK`. -/
def inspect : InspectInput → List Char
  | .cannotOpen => ("ERROR: Cannot open file\n" ++ ENDMARK).toList
  | .fileContent c => streamFile c ++ ENDMARK.toList

theorem streamFile_eq (c : List Char) : streamFile c = c := by
  rw [streamFile]
  split
  · simp_all
  · rw [streamFile_eq (c.drop 4096), List.take_append_drop]
termination_by c.length
decreasing_by
  simp [List.length_drop]
  cases c with
  | nil => simp_all
  | cons a l => simp

/-- C5: `INSPECT` on an unopenable path sends exactly the error line
immediately followed by the sentinel and nothing else; on a readable
regular file of any content it sends exactly those bytes, byte for
byte, followed by the sentinel. -/
theorem C5_inspect_exact_bytes (c : List Char) :
    inspect .cannotOpen = "ERROR: Cannot open file\n".toList ++ ENDMARK.toList ∧
    inspect (.fileContent c) = c ++ ENDMARK.toList := by
  refine ⟨by decide, ?_⟩
  simp [inspect, streamFile_eq]

/-! ### Content Scanner (`ContentScanner::scan`, DCDIU V4.0) -/

/-- What opening and fully reading one listed path yields:
`unreadable` when `open` fails (the path is skipped silently),
`content c` when the whole file is read into memory, `readFail` when a
`read` fails after a successful open (fatal for the whole scan). -/
inductive ScanFile : Type where
  | unreadable : ScanFile
  | content (c : List Char) : ScanFile
  | readFail : ScanFile
deriving DecidableEq

/-- `startsWith hs pat` holds iff `pat` occurs at the very start of
`hs` (the per-position check of `std::string::find`). -/
def startsWith : List Char → List Char → Bool
  | _, [] => true
  | [], _ :: _ => false
  | a :: hs, b :: ps => a = b && startsWith hs ps

/-- `hasSub hs pat` embeds `hs.find(pat) != std::string::npos`: the
pattern occurs, as a case-sensitive contiguous substring, at some
position of `hs` (position 0 for the empty pattern). -/
def hasSub (hs pat : List Char) : Bool :=
  if startsWith hs pat then true else
    match hs with
    | [] => false
    | _ :: rest => hasSub rest pat

/-- Embedding of `ContentScanner::scan`: walk the path list in order;
skip unreadable paths; for a readable file keep the path iff the
pattern occurs in the content (`content.find(pattern) != npos`); a read
failure throws, and the catch block returns the matches accumulated so
far. -/
def scan (files : List (String × ScanFile)) (pattern : List Char) : List String :=
  match files with
  | [] => []
  | (_, .unreadable) :: rest => scan rest pattern
  | (path, .content c) :: rest =>
      if hasSub c pattern then path :: scan rest pattern else scan rest pattern
  | (_, .readFail) :: _ => []

mutual

/-- The `(full path, content)` pairs of the regular files that the
traversal discovers under a node, in traversal order. -/
def filesOf : FSNode → String → List (String × List Char)
  | .dir true entries, p => filesOfEntries entries p
  | _, _ => []

/-- The files discovered while processing a list of entries. -/
def filesOfEntries : FSEntries → String → List (String × List Char)
  | .nil, _ => []
  | .cons name node rest, p =>
      (match node with
        | .file c => [(p ++ "/" ++ name, c)]
        | .dir b es => filesOf (.dir b es) (p ++ "/" ++ name)
        | .statFail => []
        | .special => []) ++ filesOfEntries rest p

end

mutual

theorem traverse_pathList (node : FSNode) (p : String) (n : Nat) :
    (traverse node p n).2.2 = (filesOf node p).map Prod.fst := by
  match node with
  | .file _ => simp [traverse, filesOf]
  | .statFail => simp [traverse, filesOf]
  | .special => simp [traverse, filesOf]
  | .dir false entries => simp [traverse, filesOf]
  | .dir true entries =>
      simp [traverse, filesOf, traverseEntries_pathList entries p n]

theorem traverseEntries_pathList (entries : FSEntries) (p : String) (n : Nat) :
    (traverseEntries entries p n).2.2 = (filesOfEntries entries p).map Prod.fst := by
  match entries with
  | .nil => simp [traverseEntries, filesOfEntries]
  | .cons name node rest =>
      match node with
      | .statFail =>
          simpa [traverseEntries, filesOfEntries] using
            traverseEntries_pathList rest p n
      | .special =>
          simpa [traverseEntries, filesOfEntries] using
            traverseEntries_pathList rest p n
      | .file c =>
          simpa [traverseEntries, filesOfEntries] using
            traverseEntries_pathList rest p (n + 1)
      | .dir b es =>
          have h1 := traverse_pathList (.dir b es) (p ++ "/" ++ name) n
          have h2 := traverseEntries_pathList rest p
            ((traverse (.dir b es) (p ++ "/" ++ name) n).2.1)
          simp [traverseEntries, filesOfEntries, h1, h2]

end

theorem scan_of_contents (l : List (String × List Char))
    (read : String → ScanFile) (pattern : List Char)
    (h : ∀ pc ∈ l, read pc.1 = ScanFile.content pc.2) :
    scan (l.map fun pc => (pc.1, read pc.1)) pattern =
      (l.filter fun pc => hasSub pc.2 pattern).map Prod.fst := by
  induction l with
  | nil => simp [scan]
  | cons pc rest ih =>
      have hpc : read pc.1 = ScanFile.content pc.2 := h pc (by simp)
      have hrest : ∀ qc ∈ rest, read qc.1 = ScanFile.content qc.2 :=
        fun qc hq => h qc (by simp [hq])
      by_cases hm : hasSub pc.2 pattern = true
      · simp [scan, hpc, hm, ih hrest, List.filter_cons]
      · simp [scan, hpc, hm, ih hrest, List.filter_cons]

/-- The match list computed by the `SEARCH` branch of
`ClientHandler::handle`: the traversal (from counter 0, after
truncating the path list) writes the path list, and the scanner opens
every listed path via `read` and searches it for the pattern. -/
def searchMatches (read : String → ScanFile) (root : FSNode) (p : String)
    (pattern : List Char) : List String :=
  scan (((traverse root p 0).2.2).map fun q => (q, read q)) pattern

/-- The reply block the `SEARCH` branch sends after the traversal
output: either `"\nNo matches found\n"` or `"\nMatched Files:\n"` with
one line per match. -/
def searchResponse (ms : List String) : String :=
  if ms.isEmpty then "\nNo matches found\n"
  else "\nMatched Files:\n" ++ String.join (ms.map (· ++ "\n"))

/-- All bytes the `SEARCH` branch sends: traversal announcements, then
the match block, then the sentinel. -/
def runSearch (read : String → ScanFile) (root : FSNode) (p : String)
    (pattern : List Char) : String :=
  (traverse root p 0).1 ++ searchResponse (searchMatches read root p pattern) ++ ENDMARK

/-- C2: when every file discovered by the traversal can be opened and
read back with its content, `SEARCH` reports exactly the files whose
content contains the pattern as a substring (in traversal order), and
the reply is `"\nMatched Files:\n"` with one line per match when some
file matches, `"\nNo matches found\n"` otherwise. -/
theorem C2_search_exact_matches (read : String → ScanFile) (root : FSNode)
    (p : String) (pattern : List Char)
    (h : ∀ pc ∈ filesOf root p, read pc.1 = ScanFile.content pc.2) :
    searchMatches read root p pattern =
      ((filesOf root p).filter fun pc => hasSub pc.2 pattern).map Prod.fst ∧
    (searchMatches read root p pattern = [] →
      runSearch read root p pattern =
        (traverse root p 0).1 ++ "\nNo matches found\n" ++ ENDMARK) ∧
    (searchMatches read root p pattern ≠ [] →
      runSearch read root p pattern =
        (traverse root p 0).1 ++
          ("\nMatched Files:\n" ++
            String.join ((searchMatches read root p pattern).map (· ++ "\n"))) ++
          ENDMARK) := by
  refine ⟨?_, ?_, ?_⟩
  · rw [searchMatches, traverse_pathList, List.map_map]
    exact scan_of_contents (filesOf root p) read pattern h
  · intro he
    simp [runSearch, searchResponse, he]
  · intro he
    simp [runSearch, searchResponse, he]

/-- A path-to-content oracle agreeing with the concrete test tree. -/
def testRead : String → ScanFile := fun q =>
  if q = "/r/a" then .content ['x']
  else if q = "/r/d/b" then .content []
  else if q = "/r/d/c" then .content ['y'] else .unreadable

/-- Witness for C2 on the concrete test tree with pattern `"x"`. -/
theorem C2_witness :
    (∀ pc ∈ filesOf (.dir true testEntries) "/r",
      testRead pc.1 = ScanFile.content pc.2) ∧
    searchMatches testRead (.dir true testEntries) "/r" ['x'] =
      ((filesOf (.dir true testEntries) "/r").filter
        fun pc => hasSub pc.2 ['x']).map Prod.fst :=
  ⟨by decide, (C2_search_exact_matches testRead (.dir true testEntries) "/r" ['x']
    (by decide)).1⟩

/-! ### Authenticator (`ClientHandler::authenticate`, DCDIU V4.0) -/

/-- One parsed line of `data/users.txt`: `username:salt:hash`. -/
structure CredRecord where
  username : String
  salt : String
  hash : String
deriving DecidableEq

/-- The linear scan of the credential store: first record whose
username field equals the requested username, if any. -/
def findUser : List CredRecord → String → Option CredRecord
  | [], _ => none
  | r :: rest, u => if r.username = u then some r else findUser rest u

/-- Embedding of the store logic of `ClientHandler::authenticate`,
after both prompt exchanges succeeded.  `hf` is the hash function
(`hashPassword`, i.e. hex-rendered OpenSSL SHA-256) and `freshSalt` the
salt `generateSalt` would produce.  Result: `(return value, reply sent
to the peer, credential store afterwards)`.  A found record compares
`hf(password + storedSalt)` with the stored hash; an unknown username
registers `username:salt:hash` by appending and succeeds. -/
def authenticate (hf : String → String) (freshSalt : String)
    (store : List CredRecord) (username password : String) :
    Bool × String × List CredRecord :=
  match findUser store username with
  | some r =>
      if hf (password ++ r.salt) = r.hash then
        (true, "Login successful\n", store)
      else
        (false, "Incorrect password\n", store)
  | none =>
      (true, "Account created\n",
        store ++ [⟨username, freshSalt, hf (password ++ freshSalt)⟩])

/-- The line appended to `data/users.txt` for a record:
`out << username << ":" << salt << ":" << hashed << "\n"`. -/
def serializeRecord (r : CredRecord) : String :=
  r.username ++ ":" ++ r.salt ++ ":" ++ r.hash ++ "\n"

theorem findUser_eq_none_iff (store : List CredRecord) (u : String) :
    findUser store u = none ↔ ∀ r ∈ store, r.username ≠ u := by
  induction store with
  | nil => simp [findUser]
  | cons r rest ih =>
      by_cases hr : r.username = u
      · simp [findUser, hr]
      · simp [findUser, hr, ih]

theorem findUser_append_single (store : List CredRecord) (u : String)
    (r : CredRecord) (h : findUser store u = none) :
    findUser (store ++ [r]) u = if r.username = u then some r else none := by
  induction store with
  | nil => simp [findUser]
  | cons q rest ih =>
      by_cases hq : q.username = u
      · simp [findUser, hq] at h
      · simp [findUser, hq] at h ⊢
        exact ih h

theorem string_append_right_cancel (a b s : String) (h : a ++ s = b ++ s) :
    a = b := by
  have hd : a.data ++ s.data = b.data ++ s.data := congrArg String.data h
  have hab : a.data = b.data := (List.append_left_inj s.data).mp hd
  cases a
  cases b
  simp only at hab
  rw [hab]

/-- C3: registering U with password W replies "Account created\n" and
succeeds; re-authenticating with (U, W) replies "Login successful\n";
authenticating with any W' ≠ W replies "Incorrect password\n" and
returns failure (assuming the hash function is collision-free, the
idealisation of SHA-256). -/
theorem C3_auth_round_trip (hf : String → String)
    (hinj : Function.Injective hf) (s s₁ s₂ : String)
    (store : List CredRecord) (U W Wbad : String)
    (hW : Wbad ≠ W) (hnew : findUser store U = none) :
    authenticate hf s store U W =
      (true, "Account created\n", store ++ [⟨U, s, hf (W ++ s)⟩]) ∧
    authenticate hf s₁ (store ++ [⟨U, s, hf (W ++ s)⟩]) U W =
      (true, "Login successful\n", store ++ [⟨U, s, hf (W ++ s)⟩]) ∧
    authenticate hf s₂ (store ++ [⟨U, s, hf (W ++ s)⟩]) U Wbad =
      (false, "Incorrect password\n", store ++ [⟨U, s, hf (W ++ s)⟩]) := by
  have hfind : findUser (store ++ [(⟨U, s, hf (W ++ s)⟩ : CredRecord)]) U =
      some ⟨U, s, hf (W ++ s)⟩ := by
    rw [findUser_append_single store U _ hnew]
    simp
  refine ⟨by simp [authenticate, hnew], by simp [authenticate, hfind], ?_⟩
  have hne : hf (Wbad ++ s) ≠ hf (W ++ s) := by
    intro he
    exact hW (string_append_right_cancel _ _ _ (hinj he))
  simp [authenticate, hfind, hne]

/-- Witness for C3 with the identity function as (injective) hash. -/
theorem C3_witness :
    authenticate id "salt0" [] "u" "w" =
      (true, "Account created\n", [⟨"u", "salt0", "w" ++ "salt0"⟩]) ∧
    authenticate id "s1" [⟨"u", "salt0", "w" ++ "salt0"⟩] "u" "w" =
      (true, "Login successful\n", [⟨"u", "salt0", "w" ++ "salt0"⟩]) ∧
    authenticate id "s2" [⟨"u", "salt0", "w" ++ "salt0"⟩] "u" "v" =
      (false, "Incorrect password\n", [⟨"u", "salt0", "w" ++ "salt0"⟩]) := by
  have h := C3_auth_round_trip id Function.injective_id "salt0" "s1" "s2" []
    "u" "w" "v" (by decide) rfl
  simpa using h

/-- The credential store holds at most one record per username. -/
def usernamesUnique (store : List CredRecord) : Prop :=
  store.Pairwise fun a b => a.username ≠ b.username

/-- C6: one (sequential) authentication preserves username uniqueness
of the store, and the store changes only by appending a single fresh
record, which happens only when the linear scan found no record for the
requesting username. -/
theorem C6_unique_usernames (hf : String → String) (s : String)
    (store : List CredRecord) (U W : String)
    (hu : usernamesUnique store) :
    usernamesUnique (authenticate hf s store U W).2.2 ∧
    ((authenticate hf s store U W).2.2 ≠ store →
      findUser store U = none ∧
      (authenticate hf s store U W).2.2 = store ++ [⟨U, s, hf (W ++ s)⟩]) := by
  cases hfind : findUser store U with
  | some r =>
      by_cases hh : hf (W ++ r.salt) = r.hash <;>
        simp [authenticate, hfind, hh, hu]
  | none =>
      have hnot : ∀ r ∈ store, r.username ≠ U :=
        (findUser_eq_none_iff store U).mp hfind
      constructor
      · simp only [authenticate, hfind]
        rw [usernamesUnique, List.pairwise_append]
        exact ⟨hu, List.pairwise_singleton _ _, by
          intro a ha b hb
          simp at hb
          subst hb
          exact hnot a ha⟩
      · intro _
        simp [authenticate, hfind]

/-- Witness for C6 on a one-record store and a fresh username. -/
theorem C6_witness :
    usernamesUnique (authenticate id "s" [⟨"a", "x", "y"⟩] "b" "w").2.2 ∧
    ((authenticate id "s" [⟨"a", "x", "y"⟩] "b" "w").2.2 ≠ [⟨"a", "x", "y"⟩] →
      findUser [⟨"a", "x", "y"⟩] "b" = none ∧
      (authenticate id "s" [⟨"a", "x", "y"⟩] "b" "w").2.2 =
        [⟨"a", "x", "y"⟩] ++ [⟨"b", "s", "w" ++ "s"⟩]) :=
  C6_unique_usernames id "s" [⟨"a", "x", "y"⟩] "b" "w"
    (by simp [usernamesUnique])

/-- The character array of `ClientHandler::generateSalt` (without the
terminating NUL, which `sizeof(charset) - 2` excludes from the
distribution's range). -/
def saltCharset : List Char :=
  "0123456789ABCDEFGHIJKLMNOPQRSTUVWXYZabcdefghijklmnopqrstuvwxyz".toList

theorem saltCharset_length : saltCharset.length = 62 := by decide

/-- Embedding of `ClientHandler::generateSalt`: sixteen characters,
each picked from `saltCharset` by the uniform distribution over
`[0, 61]`; `picks` stands for the sixteen Mersenne-Twister draws. -/
def generateSalt (picks : Fin 16 → Fin 62) : String :=
  String.mk ((List.finRange 16).map fun i =>
    saltCharset.get (Fin.cast saltCharset_length.symm (picks i)))

/-- One lowercase hex digit as produced by
`ss << hex << setw(2) << setfill('0')` for a nibble value. -/
def hexDigit (n : Nat) : Char :=
  if n < 10 then Char.ofNat (48 + n) else Char.ofNat (87 + n)

/-- The hex rendering loop of `ClientHandler::hashPassword`: each byte
of the digest becomes two lowercase hex characters, zero-padded. -/
def bytesToHex : List Nat → List Char
  | [] => []
  | b :: rest => hexDigit (b / 16) :: hexDigit (b % 16) :: bytesToHex rest

/-- Embedding of `ClientHandler::hashPassword`, given the 32-byte
SHA-256 digest that OpenSSL computes: the digest rendered as a
lowercase hexadecimal string. -/
def hashPassword (digest : List Nat) : String :=
  String.mk (bytesToHex digest)

/-- The character is a lowercase hexadecimal digit. -/
def isLowerHexDigit (c : Char) : Bool :=
  c.isDigit || ('a' ≤ c && c ≤ 'f')

theorem hexDigit_lower : ∀ n < 16, isLowerHexDigit (hexDigit n) = true := by
  decide

theorem bytesToHex_length (l : List Nat) :
    (bytesToHex l).length = 2 * l.length := by
  induction l with
  | nil => simp [bytesToHex]
  | cons b rest ih =>
      simp [bytesToHex, ih]
      omega

theorem bytesToHex_chars (l : List Nat) (h : ∀ b ∈ l, b < 256) :
    ∀ c ∈ bytesToHex l, isLowerHexDigit c = true := by
  induction l with
  | nil => simp [bytesToHex]
  | cons b rest ih =>
      intro c hc
      have hb : b < 256 := h b (by simp)
      simp [bytesToHex] at hc
      rcases hc with hc | hc | hc
      · subst hc
        exact hexDigit_lower (b / 16) (by omega)
      · subst hc
        exact hexDigit_lower (b % 16) (Nat.mod_lt _ (by norm_num))
      · exact ih (fun x hx => h x (by simp [hx])) c hc

theorem saltCharset_alnum : ∀ c ∈ saltCharset, c.isAlphanum = true := by
  decide

theorem generateSalt_alnum (picks : Fin 16 → Fin 62) :
    ∀ c ∈ (generateSalt picks).data, c.isAlphanum = true := by
  intro c hc
  simp [generateSalt, String.mk] at hc
  obtain ⟨i, hi⟩ := hc
  subst hi
  exact saltCharset_alnum _ (List.getElem_mem _)

/-- C7: when the linear scan finds no record for the username, the
server appends exactly one `username:salt:hash` line and replies
"Account created\n" with success, where the salt has 16 characters all
in `[0-9A-Za-z]` and the hash is the 64-character lowercase-hex
rendering of the 256-bit digest of password-concatenated-with-salt. -/
theorem C7_registration_record (sha : String → List Nat)
    (picks : Fin 16 → Fin 62) (store : List CredRecord) (U W : String)
    (hnew : findUser store U = none)
    (h32 : (sha (W ++ generateSalt picks)).length = 32)
    (h256 : ∀ b ∈ sha (W ++ generateSalt picks), b < 256) :
    authenticate (fun pw => hashPassword (sha pw)) (generateSalt picks)
        store U W =
      (true, "Account created\n",
        store ++ [⟨U, generateSalt picks,
          hashPassword (sha (W ++ generateSalt picks))⟩]) ∧
    serializeRecord ⟨U, generateSalt picks,
        hashPassword (sha (W ++ generateSalt picks))⟩ =
      U ++ ":" ++ generateSalt picks ++ ":" ++
        hashPassword (sha (W ++ generateSalt picks)) ++ "\n" ∧
    (generateSalt picks).length = 16 ∧
    (∀ c ∈ (generateSalt picks).data, c.isAlphanum = true) ∧
    (hashPassword (sha (W ++ generateSalt picks))).length = 64 ∧
    (∀ c ∈ (hashPassword (sha (W ++ generateSalt picks))).data,
      isLowerHexDigit c = true) := by
  refine ⟨by simp [authenticate, hnew], rfl, ?_, generateSalt_alnum picks, ?_, ?_⟩
  · simp [generateSalt, String.length]
  · simp [hashPassword, String.length, bytesToHex_length, h32]
  · simpa [hashPassword, String.mk] using bytesToHex_chars _ h256

/-- Witness for C7 with a constant digest function and constant draws. -/
theorem C7_witness :
    authenticate (fun pw => hashPassword ((fun _ => List.replicate 32 0) pw))
        (generateSalt fun _ => ⟨0, by norm_num⟩) [] "u" "w" =
      (true, "Account created\n",
        [] ++ [⟨"u", generateSalt fun _ => ⟨0, by norm_num⟩,
          hashPassword ((fun _ => List.replicate 32 0)
            ("w" ++ generateSalt fun _ => ⟨0, by norm_num⟩))⟩]) ∧
    serializeRecord ⟨"u", generateSalt fun _ => ⟨0, by norm_num⟩,
        hashPassword ((fun _ => List.replicate 32 0)
          ("w" ++ generateSalt fun _ => ⟨0, by norm_num⟩))⟩ =
      "u" ++ ":" ++ (generateSalt fun _ => ⟨0, by norm_num⟩) ++ ":" ++
        hashPassword ((fun _ => List.replicate 32 0)
          ("w" ++ generateSalt fun _ => ⟨0, by norm_num⟩)) ++ "\n" ∧
    (generateSalt fun _ => ⟨0, by norm_num⟩).length = 16 ∧
    (∀ c ∈ (generateSalt fun _ => ⟨0, by norm_num⟩).data,
      c.isAlphanum = true) ∧
    (hashPassword ((fun _ => List.replicate 32 0)
      ("w" ++ generateSalt fun _ => ⟨0, by norm_num⟩))).length = 64 ∧
    (∀ c ∈ (hashPassword ((fun _ => List.replicate 32 0)
        ("w" ++ generateSalt fun _ => ⟨0, by norm_num⟩))).data,
      isLowerHexDigit c = true) :=
  C7_registration_record (fun _ => List.replicate 32 0)
    (fun _ => ⟨0, by norm_num⟩) [] "u" "w" rfl (by simp)
    (by intro b hb; simp [List.eq_of_mem_replicate hb])

/-! ### Command Processor (`ClientHandler::handle`, DCDIU V4.0) -/

/-- All bytes the `TRAVERSE` branch sends: the traversal announcements,
the `"\nTotal Files: <count>\n"` summary, then the sentinel. -/
def runTraverse (node : FSNode) (p : String) : String :=
  (traverse node p 0).1 ++ traverseSummary node p ++ ENDMARK

/-- `command.find(c, start)`: index of the first occurrence of `c` at
position `start` or later, if any. -/
def findCharFrom (l : List Char) (c : Char) (start : Nat) : Option Nat :=
  match (l.drop start).findIdx? (· == c) with
  | some i => some (start + i)
  | none => none

/-- How `ClientHandler::handle` classifies one received command
string.  `crash` is an uncaught `std::out_of_range` from
`substr(pos)` with `pos > size()` (nothing catches it, so the session
process terminates). -/
inductive Dispatch : Type where
  | traverseCmd (path : String) : Dispatch
  | searchCmd (path pattern : String) : Dispatch
  | searchMalformed : Dispatch
  | inspectCmd (path : String) : Dispatch
  | exitCmd : Dispatch
  | unknown : Dispatch
  | crash : Dispatch
deriving DecidableEq

/-- Embedding of the dispatch chain of `ClientHandler::handle`:
`command.compare(0, n, verb) == 0` tests the first `n` bytes only, and
the argument is cut out with `substr`/`find` exactly as in the source
(`substr(9)` for TRAVERSE, `find(' ', 7)` then `substr(7, pos-7)` /
`substr(pos+1)` for SEARCH, `substr(8)` for INSPECT). -/
def dispatch (cmd : List Char) : Dispatch :=
  if cmd.take 8 = "TRAVERSE".toList then
    if 9 ≤ cmd.length then .traverseCmd (String.mk (cmd.drop 9)) else .crash
  else if cmd.take 6 = "SEARCH".toList then
    match findCharFrom cmd ' ' 7 with
    | none => .searchMalformed
    | some sp =>
        .searchCmd (String.mk ((cmd.drop 7).take (sp - 7)))
          (String.mk (cmd.drop (sp + 1)))
  else if cmd.take 7 = "INSPECT".toList then
    if 8 ≤ cmd.length then .inspectCmd (String.mk (cmd.drop 8)) else .crash
  else if cmd.take 4 = "EXIT".toList then .exitCmd
  else .unknown

/-- The bytes sent in reply to one received command, given oracles for
the filesystem as seen by the traversal (`fs`), by the scanner
(`read`), and by the file streamer (`insp`).  `none` models the
uncaught exception (no further bytes, session process dies). -/
def commandOutput (read : String → ScanFile) (fs : String → FSNode)
    (insp : String → InspectInput) (cmd : List Char) : Option String :=
  match dispatch cmd with
  | .traverseCmd p => some (runTraverse (fs p) p)
  | .searchCmd p pat => some (runSearch read (fs p) p pat.toList)
  | .searchMalformed => some ""
  | .inspectCmd p => some (String.mk (inspect (insp p)))
  | .exitCmd => some ""
  | .unknown => some ("ERROR: Unknown command\n" ++ ENDMARK)
  | .crash => none

/-- The post-authentication command loop of `ClientHandler::handle`:
process received commands in order, stopping at `EXIT` (which sends
nothing) or at an uncaught exception; concatenate everything sent. -/
def session (read : String → ScanFile) (fs : String → FSNode)
    (insp : String → InspectInput) : List (List Char) → String
  | [] => ""
  | cmd :: rest =>
      if dispatch cmd = .exitCmd then ""
      else
        match commandOutput read fs insp cmd with
        | none => ""
        | some out => out ++ session read fs insp rest

/-- Filesystem oracle used in witnesses: nothing is accessible. -/
def readNone : String → ScanFile := fun _ => ScanFile.unreadable

/-- Traversal oracle used in witnesses: every path fails `stat`. -/
def fsNone : String → FSNode := fun _ => FSNode.statFail

/-- Streamer oracle used in witnesses: every path fails to open. -/
def inspNone : String → InspectInput := fun _ => InspectInput.cannotOpen

theorem take_prefix_ne (cmd : List Char) (m n : Nat) (a b : List Char)
    (hmn : m ≤ n) (hma : cmd.take m = a) (hb : b.take m ≠ a) :
    cmd.take n ≠ b := by
  intro he
  apply hb
  have h1 := congrArg (List.take m) he
  rw [List.take_take, Nat.min_eq_left hmn, hma] at h1
  exact h1.symm

/-- C4 counterexample: the inbound line `"EXIT\n"` (an authenticated
session, peer connected, no streaming begun) produces zero response
bytes: no substantive response, no ERROR line and no sentinel reach the
peer. -/
theorem C4_counterexample_exit_silent :
    commandOutput readNone fsNone inspNone ("EXIT\n".toList) = some "" ∧
    ("" : String).length = 0 := by
  constructor
  · rfl
  · rfl

/-- C4 (amended): every inbound command line other than `EXIT`, a
malformed `SEARCH` (both of which send nothing), and a bare
`"TRAVERSE"`/`"INSPECT"` line that kills the session with an uncaught
`out_of_range`, is answered by some response followed by the
end-of-response sentinel. -/
theorem C4_response_or_error_then_sentinel (read : String → ScanFile)
    (fs : String → FSNode) (insp : String → InspectInput) (cmd : List Char)
    (hne : dispatch cmd ≠ .exitCmd)
    (hnm : dispatch cmd ≠ .searchMalformed)
    (hnc : dispatch cmd ≠ .crash) :
    ∃ body : String,
      commandOutput read fs insp cmd = some (body ++ ENDMARK) := by
  cases h : dispatch cmd with
  | traverseCmd p =>
      exact ⟨(traverse (fs p) p 0).1 ++ traverseSummary (fs p) p,
        by simp [commandOutput, h, runTraverse]⟩
  | searchCmd p pat =>
      exact ⟨(traverse (fs p) p 0).1 ++
        searchResponse (searchMatches read (fs p) p pat.toList),
        by simp [commandOutput, h, runSearch]⟩
  | searchMalformed => exact absurd h hnm
  | inspectCmd p =>
      refine ⟨String.mk (match insp p with
        | .cannotOpen => "ERROR: Cannot open file\n".toList
        | .fileContent c => streamFile c), ?_⟩
      cases hi : insp p with
      | cannotOpen => simp [commandOutput, h, hi, inspect]; rfl
      | fileContent c => simp [commandOutput, h, hi, inspect]; rfl
  | exitCmd => exact absurd h hne
  | unknown =>
      exact ⟨"ERROR: Unknown command\n", by simp [commandOutput, h]⟩
  | crash => exact absurd h hnc

/-- Witness for the amended C4 at the unknown command `"FOO bar\n"`. -/
theorem C4_witness :
    (dispatch ("FOO bar\n".toList) ≠ .exitCmd ∧
      dispatch ("FOO bar\n".toList) ≠ .searchMalformed ∧
      dispatch ("FOO bar\n".toList) ≠ .crash) ∧
    ∃ body : String,
      commandOutput readNone fsNone inspNone ("FOO bar\n".toList) =
        some (body ++ ENDMARK) :=
  ⟨⟨by decide, by decide, by decide⟩,
    C4_response_or_error_then_sentinel readNone fsNone inspNone _
      (by decide) (by decide) (by decide)⟩

/-- C9: a `SEARCH` line with no space at byte 7 or later is silently
dropped: it is classified as malformed, zero response bytes are sent
(no error line, no sentinel), and the loop continues with the next
command exactly as if the malformed line had never arrived. -/
theorem C9_malformed_search_silent (read : String → ScanFile)
    (fs : String → FSNode) (insp : String → InspectInput) (cmd : List Char)
    (h6 : cmd.take 6 = "SEARCH".toList)
    (hns : findCharFrom cmd ' ' 7 = none) (rest : List (List Char)) :
    dispatch cmd = .searchMalformed ∧
    commandOutput read fs insp cmd = some "" ∧
    session read fs insp (cmd :: rest) = session read fs insp rest := by
  have hT : cmd.take 8 ≠ "TRAVERSE".toList :=
    take_prefix_ne cmd 6 8 _ _ (by norm_num) h6 (by decide)
  have hd : dispatch cmd = .searchMalformed := by
    unfold dispatch
    rw [if_neg hT, if_pos h6, hns]
  refine ⟨hd, by simp [commandOutput, hd], ?_⟩
  simp [session, hd, commandOutput]

/-- Witness for C9 at the line `"SEARCH /tmp\n"` (space at byte 6 only). -/
theorem C9_witness :
    dispatch ("SEARCH /tmp\n".toList) = .searchMalformed ∧
    commandOutput readNone fsNone inspNone ("SEARCH /tmp\n".toList) = some "" ∧
    session readNone fsNone inspNone ["SEARCH /tmp\n".toList, "EXIT\n".toList] =
      session readNone fsNone inspNone ["EXIT\n".toList] :=
  C9_malformed_search_silent readNone fsNone inspNone _ (by decide) (by decide)
    ["EXIT\n".toList]

/-- C10 counterexample: the 8-byte line `"TRAVERSE"` has first 8 bytes
`TRAVERSE` but is not handled as a TRAVERSE at all — `substr(9)` throws
`std::out_of_range`, which nothing catches, so the session process
dies. -/
theorem C10_counterexample_bare_traverse :
    ("TRAVERSE".toList).take 8 = "TRAVERSE".toList ∧
    dispatch ("TRAVERSE".toList) = Dispatch.crash ∧
    Dispatch.crash ≠
      Dispatch.traverseCmd (String.mk (("TRAVERSE".toList).drop 9)) := by
  refine ⟨by decide, by decide, by decide⟩

/-- C10 (amended): dispatch compares only a fixed-length byte prefix:
every line of at least 9 bytes whose first 8 bytes are `TRAVERSE` is
handled as a TRAVERSE of the text from byte offset 9 onward (byte 8
need not be a space), and every line whose first 4 bytes are `EXIT`
(e.g. `EXITNOW`) ends the session with no response; a line of exactly
`TRAVERSE` instead raises an uncaught out-of-range error. -/
theorem C10_fixed_prefix_dispatch (read : String → ScanFile)
    (fs : String → FSNode) (insp : String → InspectInput)
    (cmd : List Char) (rest : List (List Char)) :
    (cmd.take 8 = "TRAVERSE".toList → 9 ≤ cmd.length →
      dispatch cmd = .traverseCmd (String.mk (cmd.drop 9))) ∧
    (cmd.take 4 = "EXIT".toList →
      dispatch cmd = .exitCmd ∧ session read fs insp (cmd :: rest) = "") := by
  constructor
  · intro h8 hlen
    simp [dispatch, h8, hlen]
  · intro h4
    have hT : cmd.take 8 ≠ "TRAVERSE".toList :=
      take_prefix_ne cmd 4 8 _ _ (by norm_num) h4 (by decide)
    have hS : cmd.take 6 ≠ "SEARCH".toList :=
      take_prefix_ne cmd 4 6 _ _ (by norm_num) h4 (by decide)
    have hI : cmd.take 7 ≠ "INSPECT".toList :=
      take_prefix_ne cmd 4 7 _ _ (by norm_num) h4 (by decide)
    have hd : dispatch cmd = .exitCmd := by
      unfold dispatch
      rw [if_neg hT, if_neg hS, if_neg hI, if_pos h4]
    exact ⟨hd, by simp [session, hd]⟩

/-- Witness for C10 at `"TRAVERSEX/tmp"` (no space after the verb) and
at `"EXITNOW"`. -/
theorem C10_witness :
    dispatch ("TRAVERSEX/tmp".toList) =
      .traverseCmd (String.mk (("TRAVERSEX/tmp".toList).drop 9)) ∧
    (dispatch ("EXITNOW".toList) = .exitCmd ∧
      session readNone fsNone inspNone ["EXITNOW".toList] = "") :=
  ⟨(C10_fixed_prefix_dispatch readNone fsNone inspNone
      ("TRAVERSEX/tmp".toList) []).1 (by decide) (by decide),
    (C10_fixed_prefix_dispatch readNone fsNone inspNone
      ("EXITNOW".toList) []).2 (by decide)⟩

end DCDIU
